import Mathlib

/-!
Shallow embedding of the pubky-tools core (capability check, TTL cache,
file-operations facade, directory reconstruction, blob/metadata scheme).

Modelling conventions:
* JavaScript strings are modelled as `List Char` (`JsStr`); `startsWith`,
  `endsWith`, `includes`, `split`, `join` and first-occurrence `replace`
  are given explicit executable definitions matching the ECMAScript
  behaviour on the operations the source performs.
* `TextEncoder.encode` / `TextDecoder.decode` form a bijection between
  strings and their UTF-8 byte sequences; a byte sequence is modelled by
  the string it decodes to, so encoding and decoding are identities and a
  zero-length byte sequence corresponds exactly to the empty string.
* `Date.now()` and the random id generator are ambient effects; they are
  passed as explicit `now` / id arguments.
* The remote object store (PubkyClient over the network) is modelled as an
  association map of keys to contents together with per-key success flags
  for `put` and `delete`, so network failures (timeout, HTTP error) are
  expressible; `get` is a pure lookup.
* `JSON.parse` / `JSON.stringify` are platform primitives and are passed
  as explicit function arguments where the code uses them.
-/

/-- JavaScript strings, modelled as lists of characters. -/
abbrev JsStr := List Char

/-- ECMAScript `s.startsWith(pat)`. -/
def jsStartsWith (s pat : JsStr) : Bool :=
  pat.isPrefixOf s

/-- ECMAScript `s.endsWith(pat)`. -/
def jsEndsWith (s pat : JsStr) : Bool :=
  pat.isSuffixOf s

/-- ECMAScript `s.includes(pat)`: `pat` occurs as a contiguous substring of `s`. -/
def jsIncludes : JsStr → JsStr → Bool
  | [], pat => pat.isPrefixOf ([] : JsStr)
  | c :: rest, pat => pat.isPrefixOf (c :: rest) || jsIncludes rest pat

/-- ECMAScript `s.replace(pat, repl)` with a string pattern: replace the
leftmost occurrence of `pat` in `s`, if any. -/
def replaceFirst (pat repl : JsStr) : JsStr → JsStr
  | [] => if pat.isPrefixOf ([] : JsStr) then repl else []
  | c :: rest =>
    if pat.isPrefixOf (c :: rest) then repl ++ (c :: rest).drop pat.length
    else c :: replaceFirst pat repl rest

/-- ECMAScript `s.split(sep)` for a one-character separator. -/
def jsSplit (sep : Char) (s : JsStr) : List JsStr :=
  List.splitOn sep s

/-- ECMAScript `parts.join(sep)` for a one-character separator. -/
def jsJoin (sep : Char) (parts : List JsStr) : JsStr :=
  List.intercalate [sep] parts

/-- ECMAScript `s.trim()`: strip leading and trailing whitespace. -/
def jsTrim (s : JsStr) : JsStr :=
  (s.dropWhile Char.isWhitespace).reverse.dropWhile Char.isWhitespace |>.reverse

/-- Lookup in an insertion-ordered association map (JavaScript `Map.get`). -/
def mapGet {β : Type} (k : JsStr) : List (JsStr × β) → Option β
  | [] => none
  | (k', v) :: rest => if k' = k then some v else mapGet k rest

/-- Update in an insertion-ordered association map (JavaScript `Map.set`):
an existing key keeps its position, a new key is appended. -/
def mapSet {β : Type} (k : JsStr) (v : β) : List (JsStr × β) → List (JsStr × β)
  | [] => [(k, v)]
  | (k', v') :: rest => if k' = k then (k, v) :: rest else (k', v') :: mapSet k v rest

/-- Removal from an association map (JavaScript `Map.delete`). -/
def mapDelete {β : Type} (k : JsStr) (m : List (JsStr × β)) : List (JsStr × β) :=
  m.filter fun e => decide (e.1 ≠ k)

/-- Reserved sentinel substring used by the store for non-file entries
(`"Pubky Homeserver"` in the source). -/
def sentinel : JsStr := "Pubky Homeserver".toList

/-- One cache entry (`CacheEntry` in `types/index`): key, cached string,
creation timestamp in milliseconds, and time-to-live. -/
structure CacheEntry where
  path : JsStr
  data : JsStr
  timestamp : Nat
  ttl : Nat
deriving DecidableEq, Repr

/-- The `CacheManager` state: an insertion-ordered map from key to entry. -/
abbrev Cache := List (JsStr × CacheEntry)

/-- The fixed TTL of the cache (`TTL_MS = 30 * 60 * 1000` in the source). -/
def TTL_MS : Nat := 30 * 60 * 1000

/-- `CacheManager.get`: a missing key is a miss; an entry whose age exceeds
`TTL_MS` is evicted and reported as a miss; otherwise the cached string is
returned. Returns the result together with the updated cache. -/
def cacheGet (c : Cache) (path : JsStr) (now : Nat) : Option JsStr × Cache :=
  match mapGet path c with
  | none => (none, c)
  | some entry =>
    if now - entry.timestamp > TTL_MS then (none, mapDelete path c)
    else (some entry.data, c)

/-- `CacheManager.set`: store `data` under `path` with the current timestamp
and the fixed TTL. -/
def cacheSet (c : Cache) (path data : JsStr) (now : Nat) : Cache :=
  mapSet path { path := path, data := data, timestamp := now, ttl := TTL_MS } c

/-- `CacheManager.delete`. -/
def cacheDelete (c : Cache) (path : JsStr) : Cache :=
  mapDelete path c

/-- `CacheManager.invalidate(pathPattern?)`: with no pattern, clear the whole
cache; with a pattern, delete every entry whose key contains the pattern as a
literal substring (`key.includes(pathPattern)` in the source). -/
def cacheInvalidate (c : Cache) (pathPattern : Option JsStr) : Cache :=
  match pathPattern with
  | none => []
  | some p => c.filter fun e => !(jsIncludes e.1 p)

/-- `CacheManager.cleanup`: sweep out every entry whose age exceeds `TTL_MS`. -/
def cacheCleanup (c : Cache) (now : Nat) : Cache :=
  c.filter fun e => !(decide (now - e.2.timestamp > TTL_MS))

/-- `CacheManager.getCacheStats`: the number of entries and the list of keys. -/
def cacheStats (c : Cache) : Nat × List JsStr :=
  (c.length, c.map (·.1))

/-- The remote object store reached through `PubkyClient`. `data` maps each
existing key to its content; `putOk` and `deleteOk` record, per key, whether
the network `PUT` / `DELETE` round trip succeeds (modelling timeouts and HTTP
errors, which the client collapses into a boolean). -/
structure RemoteStore where
  data : List (JsStr × JsStr)
  putOk : JsStr → Bool
  deleteOk : JsStr → Bool

/-- `PubkyClient.get`: pure lookup; `null` when the key is absent. -/
def storeGet (st : RemoteStore) (url : JsStr) : Option JsStr :=
  mapGet url st.data

/-- `PubkyClient.put`: on success the key is bound to `content`; on failure
the store is unchanged and `false` is returned. -/
def storePut (st : RemoteStore) (url content : JsStr) : Bool × RemoteStore :=
  (st.putOk url,
   if st.putOk url then { st with data := mapSet url content st.data } else st)

/-- `PubkyClient.delete`: on success the key is removed; on failure the store
is unchanged and `false` is returned. -/
def storeDelete (st : RemoteStore) (url : JsStr) : Bool × RemoteStore :=
  (st.deleteOk url,
   if st.deleteOk url then { st with data := mapDelete url st.data } else st)

/-- Combined mutable state of the facade: the remote store and the process
wide cache singleton. -/
structure SysState where
  store : RemoteStore
  cache : Cache

/-- `FileOperations.getParentPath`: split on `/`, refuse to go above
`pubky://user/` (at most 3 segments), drop the last segment (and a trailing
empty segment), and re-join with a trailing slash. -/
def getParentPath (filePath : JsStr) : Option JsStr :=
  let parts := jsSplit '/' filePath
  if parts.length ≤ 3 then none
  else
    let parts1 := parts.dropLast
    let parts2 := if parts1.getLast? = some ([] : JsStr) then parts1.dropLast else parts1
    some (jsJoin '/' parts2 ++ ['/'])

/-- Helper for the facade: invalidate the cached listing of the parent of
`filePath`, when a parent exists (the `if (parentPath) invalidate` pattern). -/
def cacheInvalidateParent (c : Cache) (filePath : JsStr) : Cache :=
  match getParentPath filePath with
  | some pp => cacheInvalidate c (some pp)
  | none => c

/-- `FileOperations.createFile`: encode and `put`; on success cache the
content at `filePath` and invalidate the parent listing cache. -/
def createFile (filePath content : JsStr) (now : Nat) (s : SysState) :
    Bool × SysState :=
  let ok := (storePut s.store filePath content).1
  let st := (storePut s.store filePath content).2
  if ok then
    (ok, ⟨st, cacheInvalidateParent (cacheSet s.cache filePath content now) filePath⟩)
  else
    (ok, ⟨st, s.cache⟩)

/-- Store-read phase of `FileOperations.readFile`: fetch from the store,
decode (zero-length data decodes to the empty string), cache the result. -/
def readFileStore (filePath : JsStr) (now : Nat) (s : SysState) :
    Option JsStr × SysState :=
  match storeGet s.store filePath with
  | some data =>
    let content := if data.length = 0 then ([] : JsStr) else data
    (some content, { s with cache := cacheSet s.cache filePath content now })
  | none => (none, s)

/-- `FileOperations.readFile`: reject empty paths and paths containing the
sentinel; optionally consult the cache (a hit returns immediately, an expired
entry is evicted); on a miss fall through to the store. -/
def readFile (filePath : JsStr) (useCache : Bool) (now : Nat) (s : SysState) :
    Option JsStr × SysState :=
  if filePath = [] ∨ jsIncludes filePath sentinel = true then (none, s)
  else if useCache then
    match cacheGet s.cache filePath now with
    | (some cached, c') => (some cached, { s with cache := c' })
    | (none, c') => readFileStore filePath now { s with cache := c' }
  else
    readFileStore filePath now s

/-- `FileOperations.updateFile`: the same store write as `createFile`; on
success update the cached value at `filePath` only (no parent invalidation). -/
def updateFile (filePath content : JsStr) (now : Nat) (s : SysState) :
    Bool × SysState :=
  let ok := (storePut s.store filePath content).1
  let st := (storePut s.store filePath content).2
  if ok then
    (ok, ⟨st, cacheSet s.cache filePath content now⟩)
  else
    (ok, ⟨st, s.cache⟩)

/-- `FileOperations.deleteFile`: delete from the store; on success evict
`filePath` from the cache and invalidate the parent listing cache. -/
def deleteFile (filePath : JsStr) (s : SysState) : Bool × SysState :=
  let ok := (storeDelete s.store filePath).1
  let st := (storeDelete s.store filePath).2
  if ok then
    (ok, ⟨st, cacheInvalidateParent (cacheDelete s.cache filePath) filePath⟩)
  else
    (ok, ⟨st, s.cache⟩)

/-- `FileOperations.copyFile`: cache-enabled read of the source, then
`createFile` at the destination; `false` when the source reads as `null`. -/
def copyFile (sourcePath destinationPath : JsStr) (now : Nat) (s : SysState) :
    Bool × SysState :=
  match readFile sourcePath true now s with
  | (some content, s1) => createFile destinationPath content now s1
  | (none, s1) => (false, s1)

/-- `FileOperations.moveFile`: copy, then (only when the copy succeeded)
delete the source, ignoring the delete's result; return the copy's result. -/
def moveFile (sourcePath destinationPath : JsStr) (now : Nat) (s : SysState) :
    Bool × SysState :=
  match copyFile sourcePath destinationPath now s with
  | (true, s1) => (true, (deleteFile sourcePath s1).2)
  | (false, s1) => (false, s1)

/-- `FileOperations.createBinaryFile`: `put` the raw bytes; on success
invalidate the parent listing cache (no content caching). -/
def createBinaryFile (filePath data : JsStr) (s : SysState) : Bool × SysState :=
  let ok := (storePut s.store filePath data).1
  let st := (storePut s.store filePath data).2
  if ok then
    (ok, ⟨st, cacheInvalidateParent s.cache filePath⟩)
  else
    (ok, ⟨st, s.cache⟩)

/-- An initial system state whose store accepts every `put` and `delete` and
holds no objects. -/
def emptySys : SysState :=
  ⟨⟨[], fun _ => true, fun _ => true⟩, []⟩

/-- The capability check (`hasWriteAccess` in `lib/utils`): a key is
authorizable only when it starts with `pubky://<userPublicKey>/pub/`; the
owner prefix is then rewritten to `/pub/` (first-occurrence replace, as in
the source) and some capability string `"path:perm"` must have a permission
part containing `w` and pass the bidirectional prefix test against the
rewritten path. -/
def hasWriteAccess (userPublicKey : JsStr) (capabilities : List JsStr)
    (filePath : JsStr) : Bool :=
  let ownPub := "pubky://".toList ++ userPublicKey ++ "/pub/".toList
  if jsStartsWith filePath ownPub then
    let pathAfterPub := replaceFirst ownPub ("/pub/".toList) filePath
    capabilities.any fun capability =>
      let parts := jsSplit ':' capability
      let path := parts.headD []
      match parts[1]? with
      | none => false
      | some permission =>
        if permission.isEmpty || !(jsIncludes permission ['w']) then false
        else jsStartsWith pathAfterPub path || jsStartsWith path pathAfterPub
  else false

/-- One entry of a directory listing (`PubkyFile` in `types/index`).
The `size` of a file is produced by the source's `estimateFileSize`
(pseudo-random, passed here as an explicit function) and `lastModified` is a
mock timestamp (passed as an explicit string). -/
structure PubkyFile where
  name : JsStr
  path : JsStr
  isDirectory : Bool
  size : Option Nat
  lastModified : Option JsStr
deriving DecidableEq, Repr

/-- Code-point comparison of strings, modelling `a.localeCompare(b) <= 0` of
the source's sort comparator as plain lexicographic order. -/
def strLe : JsStr → JsStr → Bool
  | [], _ => true
  | _ :: _, [] => false
  | a :: as, b :: bs =>
    if a.val.toNat < b.val.toNat then true
    else if b.val.toNat < a.val.toNat then false
    else strLe as bs

/-- The listing sort order of `FileOperations.listFiles`: directories strictly
before files; within a kind, by name. -/
def fileLE (a b : PubkyFile) : Bool :=
  if a.isDirectory && !b.isDirectory then true
  else if !a.isDirectory && b.isDirectory then false
  else strLe a.name b.name

/-- Propositional form of `fileLE`, used to instantiate the sort. -/
def fileOrder (a b : PubkyFile) : Prop :=
  fileLE a b = true

instance : DecidableRel fileOrder := fun a b => by
  unfold fileOrder
  infer_instance

/-- The per-key filtering of `FileOperations.listFiles`: `none` when the key
is skipped (empty, equal to the prefix, sentinel, empty remainder, dotfile,
doubled separator, or blank first segment), otherwise the immediate child
name, with a trailing slash when the key denotes a nested entry. -/
def childNameOf (normalizedPath url : JsStr) : Option JsStr :=
  if url = [] ∨ url = normalizedPath ∨ jsIncludes url sentinel = true then none
  else
    let relativePath := replaceFirst normalizedPath [] url
    if relativePath = [] then none
    else if jsIncludes relativePath sentinel || jsStartsWith relativePath ['.'] ||
        jsIncludes relativePath ['/', '/'] then none
    else
      let segments := jsSplit '/' relativePath
      let firstSegment := segments.headD []
      if firstSegment ≠ [] ∧ 0 < (jsTrim firstSegment).length then
        let isDirectory := decide (1 < segments.length) || jsEndsWith relativePath ['/']
        some (if isDirectory then firstSegment ++ ['/'] else firstSegment)
      else none

/-- JavaScript `Set.add` on an insertion-ordered set of strings. -/
def addToSet (x : JsStr) (s : List JsStr) : List JsStr :=
  if s.contains x then s else s ++ [x]

/-- The collection loop of `FileOperations.listFiles`: fold the keys into the
insertion-ordered set of immediate child names. -/
def collectChildren (normalizedPath : JsStr) : List JsStr → List JsStr → List JsStr
  | [], acc => acc
  | url :: rest, acc =>
    match childNameOf normalizedPath url with
    | some n => collectChildren normalizedPath rest (addToSet n acc)
    | none => collectChildren normalizedPath rest acc

/-- Directory reconstruction: the pure core of `FileOperations.listFiles`
(lines 143-202 of the source), turning the flat key list returned by the
store's prefix list into one sorted level of `PubkyFile` nodes. The source's
`Array.prototype.sort` with the dirs-first comparator is modelled as a stable
insertion sort with `fileOrder`. -/
def reconstructListing (normalizedPath : JsStr) (allUrls : List JsStr)
    (estimateFileSize : JsStr → Nat) (nowISO : JsStr) : List PubkyFile :=
  let childNames := collectChildren normalizedPath allUrls []
  let files := childNames.map fun name =>
    let isDirectory := jsEndsWith name ['/']
    let cleanName := if isDirectory then name.dropLast else name
    { name := cleanName
      path := normalizedPath ++ name
      isDirectory := isDirectory
      size := if isDirectory then none else some (estimateFileSize cleanName)
      lastModified := some nowISO : PubkyFile }
  List.insertionSort fileOrder files

/-- Blob metadata record (`BlobMetadata` in `types/index`); numbers are
JavaScript numbers, modelled as integers. -/
structure BlobMetadata where
  name : JsStr
  created_at : Int
  src : JsStr
  content_type : JsStr
  size : Int
deriving DecidableEq, Repr

/-- A browser `File` object as used by `BlobManager.uploadImage`. -/
structure JsFile where
  name : JsStr
  type : JsStr
  size : Int
  bytes : JsStr

/-- `BlobManager.uploadImage`: build the blob and metadata keys from two
random ids, write the blob via `createBinaryFile`, then write the metadata
record via `createFile`, ignoring both boolean results, and return the paths
and the record. `stringify` stands for `JSON.stringify` and `blobId`,
`metadataId`, `now` for the ambient randomness and clock. -/
def blobPathOf (userPublicKey basePath blobId : JsStr) : JsStr :=
  "pubky://".toList ++ userPublicKey ++ basePath ++ "/blobs/".toList ++ blobId

def metadataPathOf (userPublicKey basePath metadataId : JsStr) : JsStr :=
  "pubky://".toList ++ userPublicKey ++ basePath ++ "/files/".toList ++ metadataId

def uploadImage (stringify : BlobMetadata → JsStr) (file : JsFile)
    (basePath userPublicKey blobId metadataId : JsStr) (now : Nat)
    (s : SysState) : (JsStr × JsStr × BlobMetadata) × SysState :=
  let timestamp : Int := (now : Int) * 1000
  let blobPath := blobPathOf userPublicKey basePath blobId
  let metadataPath := metadataPathOf userPublicKey basePath metadataId
  let metadata : BlobMetadata :=
    ⟨file.name, timestamp, blobPath, file.type, file.size⟩
  let s1 := (createBinaryFile blobPath file.bytes s).2
  let s2 := (createFile metadataPath (stringify metadata) now s1).2
  ((blobPath, metadataPath, metadata), s2)

/-- JavaScript values produced by `JSON.parse`. -/
inductive JsValue where
  | jstr (s : JsStr)
  | jnum (n : Int)
  | jbool (b : Bool)
  | jnull
  | jarr (elems : List JsValue)
  | jobj (fields : List (JsStr × JsValue))

/-- Property access `v[k]` on a parsed JSON value: `undefined` (here `none`)
unless `v` is an object with the field; with duplicate keys, `JSON.parse`
keeps the last one. -/
def getField (v : JsValue) (k : JsStr) : Option JsValue :=
  match v with
  | .jobj fields => fields.foldl (fun acc f => if f.1 = k then some f.2 else acc) none
  | _ => none

/-- The `typeof x === "string"` test of the source, as a partial projection. -/
def asString : Option JsValue → Option JsStr
  | some (.jstr s) => some s
  | _ => none

/-- The `typeof x === "number"` test of the source, as a partial projection. -/
def asNumber : Option JsValue → Option Int
  | some (.jnum n) => some n
  | _ => none

/-- The validation conjunction of `BlobManager.parseBlobMetadata`: the five
`typeof` checks and the `src.startsWith("pubky://")` test on a parsed value. -/
def validateFields (v : JsValue) : Option BlobMetadata :=
  match asString (getField v ("name".toList)), asNumber (getField v ("created_at".toList)),
      asString (getField v ("src".toList)), asString (getField v ("content_type".toList)),
      asNumber (getField v ("size".toList)) with
  | some nm, some ca, some src, some ct, some sz =>
    if jsStartsWith src ("pubky://".toList) then some ⟨nm, ca, src, ct, sz⟩
    else none
  | _, _, _, _, _ => none

/-- `BlobManager.parseBlobMetadata`: deserialize (`jsonParse` stands for
`JSON.parse`; `none` models a thrown-and-caught parse error), require the
five fields with their types and `src` starting with `pubky://`, and return
`null` on any failure. -/
def parseBlobMetadata (jsonParse : JsStr → Option JsValue) (jsonContent : JsStr) :
    Option BlobMetadata :=
  match jsonParse jsonContent with
  | none => none
  | some v => validateFields v

/-- `BlobManager.isBlobMetadata`: true exactly when `parseBlobMetadata` does
not return `null`. -/
def isBlobMetadata (jsonParse : JsStr → Option JsValue) (jsonContent : JsStr) : Bool :=
  decide (parseBlobMetadata jsonParse jsonContent ≠ none)

/-- The cache state of the pattern-invalidation scenario: three entries
`list:a/x`, `list:a/y`, `file:a/x` inserted at time 0. -/
def patternCache : Cache :=
  cacheSet (cacheSet (cacheSet [] ("list:a/x".toList) ("v1".toList) 0)
    ("list:a/y".toList) ("v2".toList) 0) ("file:a/x".toList) ("v3".toList) 0

/-- The owner's writable-subtree prefix, `pubky://<userPublicKey>/pub/`. -/
def ownPubOf (userPublicKey : JsStr) : JsStr :=
  "pubky://".toList ++ userPublicKey ++ "/pub/".toList

/-- Stated from the spec's words: the canonical target path obtained by
stripping the owner prefix from the target key, so that it begins `/pub/`. -/
def specCanonicalTarget (userPublicKey filePath : JsStr) : JsStr :=
  "/pub/".toList ++ filePath.drop (ownPubOf userPublicKey).length

/-- Sanity checks of the embedded JavaScript string operations. -/
example : jsSplit '/' ("pubky://u/pub/a.txt".toList) =
    ["pubky:".toList, [], "u".toList, "pub".toList, "a.txt".toList] := by decide

example : jsSplit ':' ([] : JsStr) = [[]] := by decide

example : replaceFirst ("ab".toList) ([] : JsStr) ("xabyab".toList) = "xyab".toList := by
  decide

example : jsIncludes ("list:a/x".toList) ("list:a*".toList) = false := by decide

example : jsIncludes ("list:a/x".toList) ("list:a".toList) = true := by decide

example : getParentPath ("pubky://u/pub/a.txt".toList) = some ("pubky://u/pub/".toList) := by
  decide

example : getParentPath ("pubky://u/pub/dir/".toList) = some ("pubky://u/pub/dir/".toList) := by
  decide

example : getParentPath ("pubky://u/pub".toList) = some ("pubky://u/".toList) := by decide

example : getParentPath ("pubky://u".toList) = none := by decide

example :
    hasWriteAccess ("owner".toList) [("/pub/app/:rw".toList)]
      ("pubky://owner/pub/app/sub/file.txt".toList) = true := by decide

example :
    hasWriteAccess ("owner".toList) [("/pub/app/:rw".toList)]
      ("pubky://other/pub/app/sub/file.txt".toList) = false := by decide

theorem mapGet_mapSet_self {β : Type} (k : JsStr) (v : β) (m : List (JsStr × β)) :
    mapGet k (mapSet k v m) = some v := by
  induction m with
  | nil => simp [mapGet, mapSet]
  | cons e rest ih =>
    obtain ⟨ek, ev⟩ := e
    by_cases h : ek = k
    · simp [mapSet, mapGet, h]
    · simp [mapSet, mapGet, h, ih]

theorem mapGet_mapSet_ne {β : Type} (k k' : JsStr) (v : β) (m : List (JsStr × β))
    (h : k' ≠ k) : mapGet k' (mapSet k v m) = mapGet k' m := by
  have hne : k ≠ k' := Ne.symm h
  induction m with
  | nil => simp [mapGet, mapSet, hne]
  | cons e rest ih =>
    obtain ⟨ek, ev⟩ := e
    by_cases he : ek = k
    · simp [mapSet, mapGet, he, hne]
    · simp [mapSet, mapGet, he, ih]

theorem mapGet_mapDelete_self {β : Type} (k : JsStr) (m : List (JsStr × β)) :
    mapGet k (mapDelete k m) = none := by
  induction m with
  | nil => simp [mapGet, mapDelete]
  | cons e rest ih =>
    obtain ⟨ek, ev⟩ := e
    by_cases h : ek = k
    · simpa [mapDelete, h] using ih
    · simpa [mapDelete, mapGet, h] using ih

theorem replaceFirst_of_isPrefixOf (pat repl s : JsStr) (h : pat.isPrefixOf s = true) :
    replaceFirst pat repl s = repl ++ s.drop pat.length := by
  cases s with
  | nil =>
    have hp : pat = [] := by
      have := List.isPrefixOf_iff_prefix.mp h
      simpa using this
    subst hp
    simp [replaceFirst]
  | cons c rest => simp [replaceFirst, h]

theorem mapGet_filter_pred {β : Type} (k : JsStr) (p : JsStr × β → Bool)
    (m : List (JsStr × β)) (h : ∀ v, p (k, v) = false) :
    mapGet k (m.filter p) = none := by
  induction m with
  | nil => simp [mapGet]
  | cons e rest ih =>
    obtain ⟨ek, ev⟩ := e
    by_cases he : ek = k
    · subst he
      simp [h ev, ih]
    · by_cases hp : p (ek, ev) = true
      · simp [hp, mapGet, he, ih]
      · simp [Bool.eq_false_iff.mpr hp, ih]

/-- C2 counterexample: the pattern `list:a*` (with the claimed wildcard)
invalidates nothing, because `invalidate` tests literal substring inclusion
and no key contains the character `*`; in particular the two `list:` entries
survive, contradicting the claim. -/
theorem invalidate_wildcard_counterexample :
    cacheInvalidate patternCache (some ("list:a*".toList)) = patternCache ∧
    mapGet ("list:a/x".toList) (cacheInvalidate patternCache (some ("list:a*".toList))) ≠ none ∧
    mapGet ("list:a/y".toList) (cacheInvalidate patternCache (some ("list:a*".toList))) ≠ none := by
  decide

/-- C2 as amended: `invalidate(pattern)` removes exactly the entries whose key
contains the pattern as a literal substring (no wildcard is interpreted); with
the literal prefix pattern `list:a` the two `list:` entries are removed and
`file:a/x` is untouched. -/
theorem invalidate_substring_spec :
    (∀ (c : Cache) (p k : JsStr),
      mapGet k (cacheInvalidate c (some p)) =
        if jsIncludes k p then none else mapGet k c) ∧
    (cacheInvalidate patternCache (some ("list:a".toList))).map Prod.fst =
      [("file:a/x".toList)] ∧
    mapGet ("file:a/x".toList) (cacheInvalidate patternCache (some ("list:a".toList))) =
      mapGet ("file:a/x".toList) patternCache := by
  refine ⟨fun c p k => ?_, by decide, by decide⟩
  induction c with
  | nil => cases h : jsIncludes k p <;> simp [cacheInvalidate, mapGet, h]
  | cons e rest ih =>
    obtain ⟨ek, ev⟩ := e
    by_cases hk : ek = k
    · subst hk
      cases h : jsIncludes ek p <;>
        simp_all [cacheInvalidate, mapGet, h]
    · cases h : jsIncludes ek p <;>
        simp_all [cacheInvalidate, mapGet, h, hk]

theorem not_mem_mapDelete_keys {β : Type} (k : JsStr) (m : List (JsStr × β)) :
    k ∉ (mapDelete k m).map Prod.fst := by
  intro hmem
  rcases List.mem_map.mp hmem with ⟨e, he, hk⟩
  have h2 := (List.mem_filter.mp he).2
  rw [hk] at h2
  simp at h2

/-- C3 counterexample: an entry stored at time 0 with the (only possible)
TTL `TTL_MS` is still returned by `get` when its age equals the TTL —
the claim says a miss occurs once `age >= ttl`, but the code expires only
strictly beyond the TTL (`now - timestamp > TTL_MS`). -/
theorem cacheGet_ttl_counterexample :
    TTL_MS - 0 ≥ TTL_MS ∧
    (cacheGet (cacheSet [] (['k'] : JsStr) (['v'] : JsStr) 0) ['k'] TTL_MS).1 =
      some ['v'] := by
  decide

/-- C3 as amended: for an entry stored at `t0` with the fixed TTL, `get`
returns the value while `age <= ttl`, and once `age > ttl` (strictly) `get`
misses, evicts the entry, and the key is gone from subsequent cache stats. -/
theorem cacheGet_ttl_spec (k v : JsStr) (t0 now : Nat) (c : Cache) :
    (now - t0 ≤ TTL_MS →
      (cacheGet (cacheSet c k v t0) k now).1 = some v) ∧
    (now - t0 > TTL_MS →
      (cacheGet (cacheSet c k v t0) k now).1 = none ∧
      mapGet k (cacheGet (cacheSet c k v t0) k now).2 = none ∧
      k ∉ (cacheStats (cacheGet (cacheSet c k v t0) k now).2).2) := by
  have hget : mapGet k (cacheSet c k v t0) =
      some { path := k, data := v, timestamp := t0, ttl := TTL_MS } :=
    mapGet_mapSet_self k _ c
  constructor
  · intro hle
    have hnot : ¬ now - t0 > TTL_MS := not_lt.mpr hle
    simp [cacheGet, hget, hnot]
  · intro hgt
    simp only [cacheGet, hget]
    rw [if_pos hgt]
    exact ⟨rfl, mapGet_mapDelete_self k _, not_mem_mapDelete_keys k (cacheSet c k v t0)⟩

/-- Witness for the amended C3 theorem at a concrete key, value and clock. -/
theorem cacheGet_ttl_spec_witness :
    (cacheGet (cacheSet [] (['k'] : JsStr) (['v'] : JsStr) 0) ['k'] 5).1 = some ['v'] ∧
    (cacheGet (cacheSet [] (['k'] : JsStr) (['v'] : JsStr) 0) ['k'] (TTL_MS + 1)).1 = none :=
  ⟨(cacheGet_ttl_spec ['k'] ['v'] 0 5 []).1 (by decide),
   ((cacheGet_ttl_spec ['k'] ['v'] 0 (TTL_MS + 1) []).2 (by decide)).1⟩

theorem createFile_fst (filePath content : JsStr) (now : Nat) (s : SysState) :
    (createFile filePath content now s).1 = s.store.putOk filePath := by
  by_cases h : s.store.putOk filePath <;> simp [createFile, storePut, h]

theorem createFile_store (filePath content : JsStr) (now : Nat) (s : SysState) :
    (createFile filePath content now s).2.store = (storePut s.store filePath content).2 := by
  by_cases h : s.store.putOk filePath <;> simp [createFile, storePut, h]

theorem updateFile_fst (filePath content : JsStr) (now : Nat) (s : SysState) :
    (updateFile filePath content now s).1 = s.store.putOk filePath := by
  by_cases h : s.store.putOk filePath <;> simp [updateFile, storePut, h]

theorem updateFile_store (filePath content : JsStr) (now : Nat) (s : SysState) :
    (updateFile filePath content now s).2.store = (storePut s.store filePath content).2 := by
  by_cases h : s.store.putOk filePath <;> simp [updateFile, storePut, h]

theorem readFile_store_eq (filePath : JsStr) (useCache : Bool) (now : Nat) (s : SysState) :
    (readFile filePath useCache now s).2.store = s.store := by
  unfold readFile readFileStore
  by_cases hg : filePath = [] ∨ jsIncludes filePath sentinel = true
  · simp [hg]
  · rw [if_neg hg]
    cases useCache with
    | false =>
      simp only [Bool.false_eq_true, if_neg (by simp : ¬ (False : Prop))]
      cases storeGet s.store filePath <;> simp
    | true =>
      simp only [if_pos rfl]
      rcases hc : cacheGet s.cache filePath now with ⟨r, c'⟩
      cases r with
      | none =>
        simp only [hc]
        cases storeGet s.store filePath <;> simp
      | some cached => simp [hc]

/-- C5 counterexample: for a path containing the reserved sentinel substring
(`"Pubky Homeserver"` itself here), `createFile` succeeds against a store that
accepts the write, yet `readFile(path, useCache := false)` returns `null`
rather than the stored content, because `readFile` rejects such paths. -/
theorem createFile_readFile_counterexample :
    (createFile sentinel ("x".toList) 0 emptySys).1 = true ∧
    (readFile sentinel false 0 (createFile sentinel ("x".toList) 0 emptySys).2).1 = none := by
  decide

/-- C5 as amended: for every nonempty path that does not contain the reserved
sentinel substring, a successful `createFile(path, content)` followed by
`readFile(path, useCache := false)` returns exactly `content` — including the
empty string, which is distinct from the `null` of an absent object. -/
theorem createFile_readFile_roundtrip (filePath content : JsStr) (now now2 : Nat)
    (s : SysState) (hne : filePath ≠ [])
    (hsent : jsIncludes filePath sentinel = false)
    (hok : (createFile filePath content now s).1 = true) :
    (readFile filePath false now2 (createFile filePath content now s).2).1 = some content := by
  have hput : s.store.putOk filePath = true := by
    rw [createFile_fst] at hok
    exact hok
  have hstore : (createFile filePath content now s).2.store.data =
      mapSet filePath content s.store.data := by
    rw [createFile_store]
    simp [storePut, hput]
  have hguard : ¬ (filePath = [] ∨ jsIncludes filePath sentinel = true) := by
    simp [hne, hsent]
  unfold readFile readFileStore
  rw [if_neg hguard]
  simp only [Bool.false_eq_true, if_neg (by simp : ¬ (False : Prop))]
  rw [show storeGet (createFile filePath content now s).2.store filePath = some content by
    rw [storeGet, hstore]
    exact mapGet_mapSet_self filePath content s.store.data]
  cases content with
  | nil => simp
  | cons c cs => simp

/-- Witness for the amended C5 round trip at a concrete path and content. -/
theorem createFile_readFile_roundtrip_witness :
    (readFile ("pubky://u/pub/a.txt".toList) false 1
      (createFile ("pubky://u/pub/a.txt".toList) ("hi".toList) 0 emptySys).2).1 =
      some ("hi".toList) :=
  createFile_readFile_roundtrip ("pubky://u/pub/a.txt".toList) ("hi".toList) 0 1 emptySys
    (by decide) (by decide) (by decide)

/-- C8: a successful `updateFile` performs the same store write as
`createFile` would, rebinds the cached value at `path` (fresh timestamp,
fixed TTL), and leaves every other cache entry — in particular any cached
parent listing under a different key — untouched. -/
theorem updateFile_frame_spec (filePath content : JsStr) (now : Nat) (s : SysState)
    (hok : (updateFile filePath content now s).1 = true) :
    (updateFile filePath content now s).2.store =
      (createFile filePath content now s).2.store ∧
    mapGet filePath (updateFile filePath content now s).2.cache =
      some { path := filePath, data := content, timestamp := now, ttl := TTL_MS } ∧
    ∀ k, k ≠ filePath →
      mapGet k (updateFile filePath content now s).2.cache = mapGet k s.cache := by
  have hput : s.store.putOk filePath = true := by
    rw [updateFile_fst] at hok
    exact hok
  have hcache : (updateFile filePath content now s).2.cache =
      cacheSet s.cache filePath content now := by
    simp [updateFile, storePut, hput]
  refine ⟨by rw [updateFile_store, createFile_store], ?_, ?_⟩
  · rw [hcache]
    exact mapGet_mapSet_self filePath _ s.cache
  · intro k hk
    rw [hcache]
    exact mapGet_mapSet_ne filePath k _ s.cache hk

/-- Witness for the C8 frame theorem: concrete update over a state carrying a
cached parent listing, which survives unchanged. -/
theorem updateFile_frame_spec_witness :
    mapGet ("pubky://u/pub/a.txt".toList)
      (updateFile ("pubky://u/pub/a.txt".toList) ("new".toList) 9
        ⟨⟨[], fun _ => true, fun _ => true⟩,
          cacheSet [] ("pubky://u/pub/".toList) ("listing".toList) 0⟩).2.cache =
      some { path := ("pubky://u/pub/a.txt".toList), data := ("new".toList),
             timestamp := 9, ttl := TTL_MS } ∧
    mapGet ("pubky://u/pub/".toList)
      (updateFile ("pubky://u/pub/a.txt".toList) ("new".toList) 9
        ⟨⟨[], fun _ => true, fun _ => true⟩,
          cacheSet [] ("pubky://u/pub/".toList) ("listing".toList) 0⟩).2.cache =
      mapGet ("pubky://u/pub/".toList)
        (cacheSet [] ("pubky://u/pub/".toList) ("listing".toList) 0) :=
  ⟨(updateFile_frame_spec ("pubky://u/pub/a.txt".toList) ("new".toList) 9
      ⟨⟨[], fun _ => true, fun _ => true⟩,
        cacheSet [] ("pubky://u/pub/".toList) ("listing".toList) 0⟩ (by decide)).2.1,
   (updateFile_frame_spec ("pubky://u/pub/a.txt".toList) ("new".toList) 9
      ⟨⟨[], fun _ => true, fun _ => true⟩,
        cacheSet [] ("pubky://u/pub/".toList) ("listing".toList) 0⟩ (by decide)).2.2
     ("pubky://u/pub/".toList) (by decide)⟩

theorem createFile_putOk (filePath content : JsStr) (now : Nat) (s : SysState) :
    (createFile filePath content now s).2.store.putOk = s.store.putOk := by
  rw [createFile_store]
  by_cases h : s.store.putOk filePath <;> simp [storePut, h]

theorem createFile_deleteOk (filePath content : JsStr) (now : Nat) (s : SysState) :
    (createFile filePath content now s).2.store.deleteOk = s.store.deleteOk := by
  rw [createFile_store]
  by_cases h : s.store.putOk filePath <;> simp [storePut, h]

theorem deleteFile_fst (filePath : JsStr) (s : SysState) :
    (deleteFile filePath s).1 = s.store.deleteOk filePath := by
  by_cases h : s.store.deleteOk filePath <;> simp [deleteFile, storeDelete, h]

theorem deleteFile_store_of_fail (filePath : JsStr) (s : SysState)
    (h : s.store.deleteOk filePath = false) :
    (deleteFile filePath s).2.store = s.store := by
  simp [deleteFile, storeDelete, h]

theorem moveFile_fst (sourcePath destinationPath : JsStr) (now : Nat) (s : SysState) :
    (moveFile sourcePath destinationPath now s).1 =
      (copyFile sourcePath destinationPath now s).1 := by
  unfold moveFile
  rcases hc : copyFile sourcePath destinationPath now s with ⟨ok, s1⟩
  cases ok <;> simp

/-- C10: `moveFile` returns the result of the copy step alone; when the copy
succeeds but the store refuses the delete of the source, `moveFile` still
returns `true` and the source key is still bound in the store afterwards. -/
theorem moveFile_copy_only_spec (sourcePath destinationPath b : JsStr) (now : Nat)
    (s : SysState) :
    ((moveFile sourcePath destinationPath now s).1 =
      (copyFile sourcePath destinationPath now s).1) ∧
    ((copyFile sourcePath destinationPath now s).1 = true →
      s.store.deleteOk sourcePath = false →
      mapGet sourcePath s.store.data = some b →
      (moveFile sourcePath destinationPath now s).1 = true ∧
      mapGet sourcePath (moveFile sourcePath destinationPath now s).2.store.data ≠ none) := by
  refine ⟨moveFile_fst sourcePath destinationPath now s, fun hcopy hdel hsrc => ?_⟩
  refine ⟨(moveFile_fst sourcePath destinationPath now s).trans hcopy, ?_⟩
  rcases hr : readFile sourcePath true now s with ⟨rv, s1⟩
  have hs1store : s1.store = s.store := by
    have := readFile_store_eq sourcePath true now s
    rw [hr] at this
    exact this
  cases rv with
  | none =>
    rw [copyFile, hr] at hcopy
    simp at hcopy
  | some content =>
    have hcopy' : copyFile sourcePath destinationPath now s =
        createFile destinationPath content now s1 := by
      rw [copyFile, hr]
    have hputdest : s1.store.putOk destinationPath = true := by
      have := createFile_fst destinationPath content now s1
      rw [← hcopy', hcopy] at this
      exact this.symm
    set s2 := (copyFile sourcePath destinationPath now s).2 with hs2
    have hs2data : s2.store.data = mapSet destinationPath content s1.store.data := by
      rw [hs2, hcopy', createFile_store]
      simp [storePut, hputdest]
    have hs2del : s2.store.deleteOk sourcePath = false := by
      rw [hs2, hcopy', createFile_deleteOk, hs1store]
      exact hdel
    have hmove2 : (moveFile sourcePath destinationPath now s).2 =
        (deleteFile sourcePath s2).2 := by
      unfold moveFile
      rcases hcp : copyFile sourcePath destinationPath now s with ⟨ok, sc⟩
      have hok : ok = true := by rw [hcp] at hcopy; exact hcopy
      subst hok
      simp [hs2, hcp]
    rw [hmove2, deleteFile_store_of_fail sourcePath s2 hs2del, hs2data]
    by_cases hsd : destinationPath = sourcePath
    · rw [hsd, mapGet_mapSet_self]
      simp
    · rw [mapGet_mapSet_ne destinationPath sourcePath content s1.store.data
        (fun hh => hsd hh.symm), hs1store, hsrc]
      simp

/-- Witness for C10: a concrete store holding the source, accepting every
`put` but refusing the delete of the source; the move reports success and the
source is still present. -/
theorem moveFile_copy_only_spec_witness :
    (moveFile ("pubky://u/pub/a.txt".toList) ("pubky://u/pub/b.txt".toList) 0
      ⟨⟨[(("pubky://u/pub/a.txt".toList), ("hi".toList))], fun _ => true,
        fun u => decide (u ≠ ("pubky://u/pub/a.txt".toList))⟩, []⟩).1 = true ∧
    mapGet ("pubky://u/pub/a.txt".toList)
      (moveFile ("pubky://u/pub/a.txt".toList) ("pubky://u/pub/b.txt".toList) 0
        ⟨⟨[(("pubky://u/pub/a.txt".toList), ("hi".toList))], fun _ => true,
          fun u => decide (u ≠ ("pubky://u/pub/a.txt".toList))⟩, []⟩).2.store.data ≠ none :=
  (moveFile_copy_only_spec ("pubky://u/pub/a.txt".toList) ("pubky://u/pub/b.txt".toList)
      ("hi".toList) 0
      ⟨⟨[(("pubky://u/pub/a.txt".toList), ("hi".toList))], fun _ => true,
        fun u => decide (u ≠ ("pubky://u/pub/a.txt".toList))⟩, []⟩).2
    (by decide) (by decide) (by decide)

theorem blobPathOf_ne_metadataPathOf (userPublicKey basePath blobId metadataId : JsStr) :
    blobPathOf userPublicKey basePath blobId ≠
      metadataPathOf userPublicKey basePath metadataId := by
  intro h
  unfold blobPathOf metadataPathOf at h
  rw [show ("/blobs/".toList) = '/' :: 'b' :: ("lobs/".toList) from rfl,
      show ("/files/".toList) = '/' :: 'f' :: ("iles/".toList) from rfl] at h
  simp only [List.append_assoc, List.cons_append] at h
  have h1 := List.append_cancel_left h
  have h2 := List.append_cancel_left h1
  have h3 := List.append_cancel_left h2
  simp at h3

theorem createBinaryFile_store (filePath data : JsStr) (s : SysState) :
    (createBinaryFile filePath data s).2.store = (storePut s.store filePath data).2 := by
  by_cases h : s.store.putOk filePath <;> simp [createBinaryFile, storePut, h]

/-- C6 counterexample: against a store that refuses the `PUT` of the blob key
(a timeout or HTTP error) but accepts the metadata write, `uploadImage`
completes and returns a record whose `src` is the blob key, yet that key does
not exist in the store while the metadata record does — the blob write did
not succeed before the metadata write, because its boolean result is ignored. -/
theorem uploadImage_counterexample :
    (uploadImage (fun _ => "json".toList)
        ⟨"img.png".toList, "image/png".toList, 3, "abc".toList⟩
        ("/pub/app".toList) ("u".toList) ("B1".toList) ("M1".toList) 7
        ⟨⟨[], fun u => decide (u ≠ blobPathOf ("u".toList) ("/pub/app".toList) ("B1".toList)),
          fun _ => true⟩, []⟩).1.2.2.src =
      blobPathOf ("u".toList) ("/pub/app".toList) ("B1".toList) ∧
    mapGet (blobPathOf ("u".toList) ("/pub/app".toList) ("B1".toList))
      (uploadImage (fun _ => "json".toList)
        ⟨"img.png".toList, "image/png".toList, 3, "abc".toList⟩
        ("/pub/app".toList) ("u".toList) ("B1".toList) ("M1".toList) 7
        ⟨⟨[], fun u => decide (u ≠ blobPathOf ("u".toList) ("/pub/app".toList) ("B1".toList)),
          fun _ => true⟩, []⟩).2.store.data = none ∧
    mapGet (metadataPathOf ("u".toList) ("/pub/app".toList) ("M1".toList))
      (uploadImage (fun _ => "json".toList)
        ⟨"img.png".toList, "image/png".toList, 3, "abc".toList⟩
        ("/pub/app".toList) ("u".toList) ("B1".toList) ("M1".toList) 7
        ⟨⟨[], fun u => decide (u ≠ blobPathOf ("u".toList) ("/pub/app".toList) ("B1".toList)),
          fun _ => true⟩, []⟩).2.store.data ≠ none := by
  decide

/-- C6 as amended: `uploadImage` issues the blob write strictly before the
metadata write (the final state factors through the blob-write state), and
whenever the store accepts the blob `PUT`, the returned record's `src` is the
blob key, which exists in the store from the blob write onwards, including
after the metadata write. When the blob `PUT` fails, the upload nevertheless
completes and `src` may dangle. -/
theorem uploadImage_blob_first_spec (stringify : BlobMetadata → JsStr) (file : JsFile)
    (basePath userPublicKey blobId metadataId : JsStr) (now : Nat) (s : SysState)
    (hput : s.store.putOk (blobPathOf userPublicKey basePath blobId) = true) :
    (uploadImage stringify file basePath userPublicKey blobId metadataId now s).1.2.2.src =
      blobPathOf userPublicKey basePath blobId ∧
    (uploadImage stringify file basePath userPublicKey blobId metadataId now s).2 =
      (createFile (metadataPathOf userPublicKey basePath metadataId)
        (stringify ⟨file.name, (now : Int) * 1000, blobPathOf userPublicKey basePath blobId,
          file.type, file.size⟩) now
        (createBinaryFile (blobPathOf userPublicKey basePath blobId) file.bytes s).2).2 ∧
    mapGet (blobPathOf userPublicKey basePath blobId)
      (createBinaryFile (blobPathOf userPublicKey basePath blobId) file.bytes s).2.store.data =
      some file.bytes ∧
    mapGet (blobPathOf userPublicKey basePath blobId)
      (uploadImage stringify file basePath userPublicKey blobId metadataId
        now s).2.store.data = some file.bytes := by
  set blobPath := blobPathOf userPublicKey basePath blobId with hbp
  set metadataPath := metadataPathOf userPublicKey basePath metadataId with hmp
  have hmid : mapGet blobPath
      (createBinaryFile blobPath file.bytes s).2.store.data = some file.bytes := by
    rw [createBinaryFile_store]
    simp only [storePut, hput, if_pos]
    exact mapGet_mapSet_self blobPath file.bytes s.store.data
  refine ⟨rfl, rfl, hmid, ?_⟩
  show mapGet blobPath
      (createFile metadataPath _ now (createBinaryFile blobPath file.bytes s).2).2.store.data =
    some file.bytes
  rw [createFile_store]
  by_cases hp2 : (createBinaryFile blobPath file.bytes s).2.store.putOk metadataPath
  · simp only [storePut, hp2, if_pos]
    rw [mapGet_mapSet_ne metadataPath blobPath _ _
      (hbp ▸ hmp ▸ blobPathOf_ne_metadataPathOf userPublicKey basePath blobId metadataId)]
    exact hmid
  · simp only [storePut, Bool.eq_false_iff.mpr hp2]
    rw [if_neg (by simp [hp2])]
    exact hmid

/-- Witness for the amended C6 theorem over a fully accepting store. -/
theorem uploadImage_blob_first_spec_witness :
    mapGet (blobPathOf ("u".toList) ("/pub/app".toList) ("B1".toList))
      (uploadImage (fun _ => "json".toList)
        ⟨"img.png".toList, "image/png".toList, 3, "abc".toList⟩
        ("/pub/app".toList) ("u".toList) ("B1".toList) ("M1".toList) 7
        emptySys).2.store.data = some ("abc".toList) :=
  (uploadImage_blob_first_spec (fun _ => "json".toList)
    ⟨"img.png".toList, "image/png".toList, 3, "abc".toList⟩
    ("/pub/app".toList) ("u".toList) ("B1".toList) ("M1".toList) 7 emptySys
    (by decide)).2.2.2

theorem asString_eq_some_iff (o : Option JsValue) (s : JsStr) :
    asString o = some s ↔ o = some (JsValue.jstr s) := by
  cases o with
  | none => simp [asString]
  | some w => cases w <;> simp [asString]

theorem asNumber_eq_some_iff (o : Option JsValue) (n : Int) :
    asNumber o = some n ↔ o = some (JsValue.jnum n) := by
  cases o with
  | none => simp [asNumber]
  | some w => cases w <;> simp [asNumber]

/-- C7: `parseBlobMetadata` returns a record exactly when the content
deserializes to a value carrying all five fields with their required types
and an `src` beginning with `pubky://`; every other input — including one
whose deserialization throws, modelled by `jsonParse` returning `none` —
yields `null` (the function is total, so no exception escapes), and
`isBlobMetadata` is true exactly when the parse is non-null. -/
theorem parseBlobMetadata_spec (jsonParse : JsStr → Option JsValue) (content : JsStr) :
    ((parseBlobMetadata jsonParse content).isSome = true ↔
      ∃ v, jsonParse content = some v ∧
        (∃ nm, getField v ("name".toList) = some (JsValue.jstr nm)) ∧
        (∃ ca, getField v ("created_at".toList) = some (JsValue.jnum ca)) ∧
        (∃ src, getField v ("src".toList) = some (JsValue.jstr src) ∧
          jsStartsWith src ("pubky://".toList) = true) ∧
        (∃ ct, getField v ("content_type".toList) = some (JsValue.jstr ct)) ∧
        (∃ sz, getField v ("size".toList) = some (JsValue.jnum sz))) ∧
    isBlobMetadata jsonParse content = (parseBlobMetadata jsonParse content).isSome := by
  constructor
  · constructor
    · intro h
      unfold parseBlobMetadata at h
      split at h
      · simp at h
      · rename_i v hp
        refine ⟨v, hp, ?_⟩
        unfold validateFields at h
        split at h
        · rename_i nm ca src ct sz h1 h2 h3 h4 h5
          split at h
          · rename_i hs
            exact ⟨⟨nm, (asString_eq_some_iff _ _).mp h1⟩,
              ⟨ca, (asNumber_eq_some_iff _ _).mp h2⟩,
              ⟨src, (asString_eq_some_iff _ _).mp h3, hs⟩,
              ⟨ct, (asString_eq_some_iff _ _).mp h4⟩,
              ⟨sz, (asNumber_eq_some_iff _ _).mp h5⟩⟩
          · simp at h
        · simp at h
    · rintro ⟨v, hv, ⟨nm, h1⟩, ⟨ca, h2⟩, ⟨src, h3, hs⟩, ⟨ct, h4⟩, ⟨sz, h5⟩⟩
      have hval : validateFields v = some ⟨nm, ca, src, ct, sz⟩ := by
        unfold validateFields
        rw [(asString_eq_some_iff _ _).mpr h1, (asNumber_eq_some_iff _ _).mpr h2,
          (asString_eq_some_iff _ _).mpr h3, (asString_eq_some_iff _ _).mpr h4,
          (asNumber_eq_some_iff _ _).mpr h5]
        show (if jsStartsWith src ("pubky://".toList) = true
            then some (⟨nm, ca, src, ct, sz⟩ : BlobMetadata) else none) =
          some (⟨nm, ca, src, ct, sz⟩ : BlobMetadata)
        rw [if_pos hs]
      unfold parseBlobMetadata
      rw [hv]
      simp [hval]
  · unfold isBlobMetadata
    cases parseBlobMetadata jsonParse content <;> simp

theorem append_sep_inj {α : Type} (x : α) :
    ∀ (a c b d : List α), x ∉ a → x ∉ c → a ++ x :: b = c ++ x :: d → a = c ∧ b = d := by
  intro a
  induction a with
  | nil =>
    intro c b d _ hc h
    cases c with
    | nil => simpa using h
    | cons y c' =>
      simp only [List.nil_append, List.cons_append, List.cons.injEq] at h
      exact absurd (h.1 ▸ List.mem_cons_self y c') hc
  | cons z a' ih =>
    intro c b d ha hc h
    cases c with
    | nil =>
      simp only [List.cons_append, List.nil_append, List.cons.injEq] at h
      exact absurd (h.1 ▸ List.mem_cons_self z a') (h.1 ▸ ha)
    | cons y c' =>
      simp only [List.cons_append, List.cons.injEq] at h
      have ha' : x ∉ a' := fun hm => ha (List.mem_cons_of_mem z hm)
      have hc' : x ∉ c' := fun hm => hc (List.mem_cons_of_mem y hm)
      obtain ⟨h3, h4⟩ := ih c' b d ha' hc' h.2
      exact ⟨by rw [h.1, h3], h4⟩

theorem not_startsWith_other_owner (userPublicKey other rest : JsStr)
    (hne : other ≠ userPublicKey) (ho : '/' ∉ other) (hu : '/' ∉ userPublicKey) :
    jsStartsWith ("pubky://".toList ++ other ++ '/' :: rest) (ownPubOf userPublicKey) =
      false := by
  rw [Bool.eq_false_iff]
  intro h
  have hpre := List.isPrefixOf_iff_prefix.mp h
  obtain ⟨t, ht⟩ := hpre
  unfold ownPubOf at ht
  rw [show ("/pub/".toList) = '/' :: ("pub/".toList) from rfl] at ht
  simp only [List.append_assoc, List.cons_append] at ht
  have ht' := List.append_cancel_left ht
  exact hne (append_sep_inj '/' userPublicKey other _ _ hu ho ht').1.symm

/-- C1: `hasWriteAccess` succeeds exactly when the target key lies under the
caller's own `pubky://<owner>/pub/` subtree and some capability whose
permission part contains `w` passes the bidirectional prefix test against
the canonical target path (owner prefix stripped, per the spec's wording);
for a key under any other owner's identity (distinct slash-free ids) the
result is unconditionally `false`. -/
theorem hasWriteAccess_spec (userPublicKey : JsStr) (capabilities : List JsStr) :
    (∀ filePath : JsStr,
      hasWriteAccess userPublicKey capabilities filePath = true ↔
        jsStartsWith filePath (ownPubOf userPublicKey) = true ∧
        ∃ capability ∈ capabilities,
          ∃ permission, (jsSplit ':' capability)[1]? = some permission ∧
            jsIncludes permission ['w'] = true ∧
            (jsStartsWith (specCanonicalTarget userPublicKey filePath)
                ((jsSplit ':' capability).headD []) = true ∨
             jsStartsWith ((jsSplit ':' capability).headD [])
                (specCanonicalTarget userPublicKey filePath) = true)) ∧
    (∀ other rest : JsStr, other ≠ userPublicKey → '/' ∉ other →
      '/' ∉ userPublicKey →
      hasWriteAccess userPublicKey capabilities
        ("pubky://".toList ++ other ++ '/' :: rest) = false) := by
  constructor
  · intro filePath
    by_cases hsw : jsStartsWith filePath (ownPubOf userPublicKey) = true
    · have hpath : replaceFirst (ownPubOf userPublicKey) ("/pub/".toList) filePath =
          specCanonicalTarget userPublicKey filePath := by
        rw [replaceFirst_of_isPrefixOf _ _ _ hsw]
        rfl
      unfold hasWriteAccess
      rw [show ("pubky://".toList ++ userPublicKey ++ "/pub/".toList) =
        ownPubOf userPublicKey from rfl]
      rw [if_pos hsw, hpath]
      rw [List.any_eq_true]
      simp only [hsw, true_and]
      apply exists_congr
      intro capability
      apply and_congr_right
      intro _
      cases hsplit : (jsSplit ':' capability)[1]? with
      | none => simp [hsplit]
      | some permission =>
        simp only [hsplit]
        by_cases hw : jsIncludes permission ['w'] = true
        · have hempty : permission.isEmpty = false := by
            cases permission with
            | nil => simp [jsIncludes] at hw
            | cons c cs => rfl
          simp [hempty, hw]
        · rcases hempty : permission.isEmpty with _ | _
          · simp [hempty, Bool.eq_false_iff.mpr hw, hw]
          · simp [hempty, hw]
    · unfold hasWriteAccess
      rw [show ("pubky://".toList ++ userPublicKey ++ "/pub/".toList) =
        ownPubOf userPublicKey from rfl]
      rw [if_neg (by simpa using hsw)]
      simp [hsw]
  · intro other rest hne ho hu
    unfold hasWriteAccess
    rw [show ("pubky://".toList ++ userPublicKey ++ "/pub/".toList) =
      ownPubOf userPublicKey from rfl]
    rw [if_neg (by
      rw [Bool.not_eq_true]
      exact not_startsWith_other_owner userPublicKey other rest hne ho hu)]

theorem strLe_total (a b : JsStr) : strLe a b = true ∨ strLe b a = true := by
  induction a generalizing b with
  | nil => left; rfl
  | cons x as ih =>
    cases b with
    | nil => right; rfl
    | cons y bs =>
      by_cases h1 : x.val.toNat < y.val.toNat
      · left; simp [strLe, h1]
      · by_cases h2 : y.val.toNat < x.val.toNat
        · right; simp [strLe, h1, h2]
        · rcases ih bs with h | h
          · left; simp [strLe, h1, h2, h]
          · right; simp [strLe, h1, h2, h]

theorem strLe_trans (a b c : JsStr) (hab : strLe a b = true) (hbc : strLe b c = true) :
    strLe a c = true := by
  induction a generalizing b c with
  | nil => rfl
  | cons x as ih =>
    cases b with
    | nil => simp [strLe] at hab
    | cons y bs =>
      cases c with
      | nil => simp [strLe] at hbc
      | cons z cs =>
        simp only [strLe] at hab hbc ⊢
        by_cases hxy : x.val.toNat < y.val.toNat
        · by_cases hyz : y.val.toNat < z.val.toNat
          · rw [if_pos (show x.val.toNat < z.val.toNat by omega)]
          · by_cases hzy : z.val.toNat < y.val.toNat
            · rw [if_neg hyz, if_pos hzy] at hbc
              exact absurd hbc (by simp)
            · rw [if_pos (show x.val.toNat < z.val.toNat by omega)]
        · by_cases hyx : y.val.toNat < x.val.toNat
          · rw [if_neg hxy, if_pos hyx] at hab
            exact absurd hab (by simp)
          · rw [if_neg hxy, if_neg hyx] at hab
            by_cases hyz : y.val.toNat < z.val.toNat
            · rw [if_pos (show x.val.toNat < z.val.toNat by omega)]
            · by_cases hzy : z.val.toNat < y.val.toNat
              · rw [if_neg hyz, if_pos hzy] at hbc
                exact absurd hbc (by simp)
              · rw [if_neg hyz, if_neg hzy] at hbc
                rw [if_neg (show ¬ x.val.toNat < z.val.toNat by omega),
                  if_neg (show ¬ z.val.toNat < x.val.toNat by omega)]
                exact ih bs cs hab hbc

instance : IsTotal PubkyFile fileOrder where
  total a b := by
    unfold fileOrder fileLE
    cases ha : a.isDirectory <;> cases hb : b.isDirectory <;> simp <;>
      exact strLe_total a.name b.name

instance : IsTrans PubkyFile fileOrder where
  trans a b c hab hbc := by
    unfold fileOrder fileLE at *
    cases ha : a.isDirectory <;> cases hb : b.isDirectory <;>
      cases hc : c.isDirectory <;> simp_all <;>
      exact strLe_trans a.name b.name c.name hab hbc

/-- C9: every listing produced by the reconstruction is ordered with all
directory nodes before all file nodes, and within each of the two groups the
entries appear in nondecreasing lexicographic name order. -/
theorem listFiles_sorted_spec (normalizedPath : JsStr) (allUrls : List JsStr)
    (estimateFileSize : JsStr → Nat) (nowISO : JsStr) :
    List.Pairwise (fun a b =>
        (b.isDirectory = true → a.isDirectory = true) ∧
        (a.isDirectory = b.isDirectory → strLe a.name b.name = true))
      (reconstructListing normalizedPath allUrls estimateFileSize nowISO) := by
  have hs : List.Sorted fileOrder
      (reconstructListing normalizedPath allUrls estimateFileSize nowISO) := by
    unfold reconstructListing
    exact List.sorted_insertionSort fileOrder _
  refine hs.imp ?_
  intro a b hab
  unfold fileOrder fileLE at hab
  constructor
  · intro hbdir
    by_contra hadir
    rw [Bool.not_eq_true] at hadir
    rw [hadir, hbdir] at hab
    simp at hab
  · intro hsame
    cases ha : a.isDirectory <;> rw [ha] at hsame <;> rw [ha, ← hsame] at hab <;>
      simpa using hab

theorem childNameOf_none_of_discard (normalizedPath url : JsStr)
    (h : url = normalizedPath ∨ jsIncludes url sentinel = true ∨
      jsStartsWith (replaceFirst normalizedPath [] url) ['.'] = true ∨
      jsIncludes (replaceFirst normalizedPath [] url) ['/', '/'] = true) :
    childNameOf normalizedPath url = none := by
  unfold childNameOf
  rcases h with h | h | h | h
  · rw [if_pos (Or.inr (Or.inl h))]
  · rw [if_pos (Or.inr (Or.inr h))]
  all_goals
    by_cases h0 : url = [] ∨ url = normalizedPath ∨ jsIncludes url sentinel = true
  · rw [if_pos h0]
  · rw [if_neg h0]
    by_cases h1 : replaceFirst normalizedPath [] url = []
    · simp [h1]
    · simp [h1, h]
  · rw [if_pos h0]
  · rw [if_neg h0]
    by_cases h1 : replaceFirst normalizedPath [] url = []
    · simp [h1]
    · simp [h1, h]

theorem collectChildren_skip (normalizedPath url : JsStr)
    (h : childNameOf normalizedPath url = none) (us1 us2 : List JsStr)
    (acc : List JsStr) :
    collectChildren normalizedPath (us1 ++ url :: us2) acc =
      collectChildren normalizedPath (us1 ++ us2) acc := by
  induction us1 generalizing acc with
  | nil =>
    simp only [List.nil_append]
    rw [collectChildren, h]
  | cons u rest ih =>
    simp only [List.cons_append]
    rw [collectChildren, collectChildren]
    cases childNameOf normalizedPath u <;> simp only [] <;> exact ih _

/-- C4: reconstruction discards keys equal to the prefix, keys containing the
reserved sentinel, keys whose remainder after stripping the prefix starts
with a dot, and keys whose remainder contains a doubled separator (for a key
not under the prefix, the remainder is the key itself, so a malformed foreign
key is discarded); such a key contributes nothing to the listing. For the
claim's six-key example the result is exactly one directory node `a` and one
file node `b.txt`. -/
theorem listFiles_discards_spec :
    (∀ (normalizedPath url : JsStr) (us1 us2 : List JsStr)
        (estimateFileSize : JsStr → Nat) (nowISO : JsStr),
      (url = normalizedPath ∨ jsIncludes url sentinel = true ∨
        jsStartsWith (replaceFirst normalizedPath [] url) ['.'] = true ∨
        jsIncludes (replaceFirst normalizedPath [] url) ['/', '/'] = true) →
      reconstructListing normalizedPath (us1 ++ url :: us2) estimateFileSize nowISO =
        reconstructListing normalizedPath (us1 ++ us2) estimateFileSize nowISO) ∧
    (reconstructListing ("pubky://owner/pub/".toList)
        ["pubky://owner/pub/".toList ++ "a/".toList,
         "pubky://owner/pub/".toList ++ "a/x.json".toList,
         "pubky://owner/pub/".toList ++ "b.txt".toList,
         "pubky://owner/pub/".toList ++ sentinel,
         "pubky://owner/pub/".toList ++ ".hidden".toList,
         "scheme://other//bad".toList]
        (fun _ => 0) []).map (fun f => (f.name, f.isDirectory)) =
      [("a".toList, true), ("b.txt".toList, false)] := by
  constructor
  · intro normalizedPath url us1 us2 estimateFileSize nowISO h
    unfold reconstructListing
    rw [collectChildren_skip normalizedPath url
      (childNameOf_none_of_discard normalizedPath url h) us1 us2 []]
  · decide
